import Mathlib

/-!
Verification development for the conlang word-generation engine
(conlang_engine.py).  The engine is shallowly embedded: Python dicts become
insertion-ordered association lists, the global `random` stream becomes an
explicit list of natural-number draws threaded through every operation, float
weights are modelled as integers (all weight manipulation in the engine is
addition, multiplication, comparison with zero and clamping, none of which
depends on fractional values), and compiled regular-expression constraint
patterns are modelled as abstract predicates on strings (a compiled pattern
is exactly a predicate `does this pattern match anywhere in the word`).
-/

namespace Conlang

/-- Weights: Python floats, modelled as integers (see header note). -/
abbrev Weight := Int

/-- Deterministic model of the global random stream: a list of pending draw
values; drawing from an exhausted stream yields 0. -/
abbrev Rand := List Nat

/-- A compiled constraint pattern, modelled as the predicate
`pattern.search(word) is not None` (true when the pattern matches anywhere
in the word). -/
abbrev Matcher := String → Bool

/-- One bucket of a phoneme pool: phoneme to accumulated weight
(Python defaultdict(float)). -/
abbrev PoolBucket := List (String × Weight)

/-- Pools: phonetic slot class name to bucket
(Python defaultdict(lambda: defaultdict(float))). -/
abbrev Pools := List (String × PoolBucket)

/-- Take the next value from the random stream. -/
def draw : Rand → Nat × Rand
  | [] => (0, [])
  | n :: rest => (n, rest)

/-- Association-list lookup by key, first match wins (Python dict lookup;
keys are unique in every dict the engine builds). -/
def lookupA {β : Type} (k : String) : List (String × β) → Option β
  | [] => none
  | p :: rest => if p.1 = k then some p.2 else lookupA k rest

/-- Code-point lexicographic comparison of character lists, the order Python
uses to compare strings in sorted(). -/
def lexLe : List Char → List Char → Bool
  | [], _ => true
  | _ :: _, [] => false
  | a :: as, b :: bs =>
    if a.toNat < b.toNat then true
    else if b.toNat < a.toNat then false
    else lexLe as bs

/-- String comparison by code points (Python str comparison). -/
def strLe (a b : String) : Bool := lexLe a.toList b.toList

/-- Order relation used at every sorting site of the engine. -/
def strLeP (a b : String) : Prop := strLe a b = true

instance : DecidableRel strLeP :=
  fun a b => inferInstanceAs (Decidable (strLe a b = true))

/-- Python sorted() on a list of strings. -/
def sortStrings (l : List String) : List String := List.insertionSort strLeP l

/-- Python random.choice(xs): uniform selection, modelled by taking the next
draw modulo the list length.  On an empty list Python raises IndexError;
every call site in the engine guards non-emptiness, so none is returned
there instead. -/
def randChoice {α : Type} (xs : List α) (g : Rand) : Option α × Rand :=
  (xs.get? ((draw g).1 % xs.length), (draw g).2)

/-- Index selection for weighted choice: Python random.choices never returns
an element of zero weight when the total is positive, so the draw selects
among the indices of positive weight (falling back to index 0, unreachable
at the guarded call sites). -/
def pickWeightedIdx (ws : List Weight) (n : Nat) : Nat :=
  let pos := (List.range ws.length).filter (fun i => decide ((0 : Weight) < ws.getD i 0))
  pos.getD (n % pos.length) 0

/-- Python random.choices(xs, weights=ws, k=1)[0]. -/
def randChoices {α : Type} (xs : List α) (ws : List Weight) (g : Rand) : Option α × Rand :=
  (xs.get? (pickWeightedIdx ws (draw g).1), (draw g).2)

/-- Split a character list at the first closing parenthesis: returns the
characters before it and the characters after it, or none when no closing
parenthesis exists. -/
def splitAtClose : List Char → Option (List Char × List Char)
  | [] => none
  | c :: rest =>
    if c = ')' then some ([], rest)
    else (splitAtClose rest).map (fun p => (c :: p.1, p.2))

/-- Template expansion worker: structural recursion on fuel, which every
step decreases by one while consuming at least one character, so fuel equal
to the character count is never exhausted mid-scan (the zero-fuel arm only
fires on the empty remainder). -/
def expandShapeFuel : Nat → List Char → Rand → List Char × Rand
  | 0, s, g => (s, g)
  | _ + 1, [], g => ([], g)
  | fuel + 1, c :: rest, g =>
    if c = '(' then
      match splitAtClose rest with
      | some ca =>
        if ca.1.isEmpty then
          let r := expandShapeFuel fuel rest g
          (c :: r.1, r.2)
        else
          let pick := randChoice [ca.1, ([] : List Char)] g
          let r := expandShapeFuel fuel ca.2 pick.2
          ((pick.1.getD []) ++ r.1, r.2)
      | none => (c :: rest, g)
    else
      let r := expandShapeFuel fuel rest g
      (c :: r.1, r.2)

/-- Template expansion (_expand_shape): re.sub with pattern
backslash-open-paren, one or more non-close characters captured,
backslash-close-paren, replacing each match by random.choice of the captured
content or the empty string.  The scan is left to right; a parenthesis pair
with empty content, or an open parenthesis with no later close, is left
verbatim, exactly as the regular expression leaves it unmatched. -/
def expandShape (s : List Char) (g : Rand) : List Char × Rand :=
  expandShapeFuel s.length s g

/-- Update an accumulated-weight map, Python defaultdict m[k] += w. -/
def addW : List (String × Weight) → String → Weight → List (String × Weight)
  | [], k, w => [(k, w)]
  | p :: rest, k, w =>
    if p.1 = k then (p.1, p.2 + w) :: rest else p :: addW rest k w

/-- Update a pool, Python pools[cat][ph] += w on nested defaultdicts. -/
def addPool : Pools → String → String → Weight → Pools
  | [], cat, ph, w => [(cat, addW [] ph w)]
  | p :: rest, cat, ph, w =>
    if p.1 = cat then (p.1, addW p.2 ph w) :: rest else p :: addPool rest cat ph w

/-- Bucket of a pool for a class name, empty when absent
(Python pools.get(k, dict())). -/
def bucketOf (p : Pools) (k : String) : PoolBucket := (lookupA k p).getD []

/-- Python truthiness test `not pools.get(k)`: true when the key is absent or
maps to an empty dict. -/
def bucketEmptyB (p : Pools) (k : String) : Bool := (bucketOf p k).isEmpty

/-- Weight of a phoneme in a bucket, Python bucket.get(p, 0.0). -/
def getW (m : List (String × Weight)) (k : String) : Weight := (lookupA k m).getD 0

/-- Slot-specific pool for a shape symbol, Python pools.get(ch, dict()). -/
def slotPool (pools : Pools) (c : Char) : PoolBucket := bucketOf pools (String.singleton c)

/-- Catch-all pool, Python pools.get("any", dict()). -/
def anyPool (pools : Pools) : PoolBucket := bucketOf pools "any"

/-- Candidate phonemes for one slot: Python
sorted(set(slot_pool) | set(any_pool)), the stable sorted order required for
seeded reproducibility. -/
def candidateList (slot anyp : PoolBucket) : List String :=
  sortStrings ((slot.map Prod.fst ++ anyp.map Prod.fst).dedup)

/-- Sorted shape-template keys, Python sorted(shapes_weights.keys()). -/
def sortedShapeKeys (sw : List (String × Weight)) : List String :=
  sortStrings (sw.map Prod.fst)

/-- Shape selection (_choose_shape): returns none when no templates exist;
otherwise weighted choice over the sorted templates with weights clamped at
zero, uniform choice when the clamped weights sum to zero, then template
expansion. -/
def chooseShape (sw : List (String × Weight)) (g : Rand) : Option String × Rand :=
  if sw.isEmpty then (none, g)
  else
    let shapes := sortedShapeKeys sw
    let weights := shapes.map (fun s => max ((lookupA s sw).getD 0) 0)
    let pick := if weights.sum = 0 then randChoice shapes g else randChoices shapes weights g
    match pick.1 with
    | none => (none, pick.2)
    | some t =>
      let ex := expandShape t.toList pick.2
      (some (String.mk ex.1), ex.2)

/-- Slot filling (_fill_shape): per symbol, candidates are the union of the
slot pool and the "any" pool; empty union fails the whole fill; weights are
the sums across both pools; weighted choice, uniform when the weights sum to
zero; output is the concatenation of the chosen phonemes in shape order. -/
def fillShape : List Char → Pools → Rand → Option String × Rand
  | [], _, g => (some "", g)
  | c :: rest, pools, g =>
    let slot := slotPool pools c
    let anyp := anyPool pools
    let cand := candidateList slot anyp
    if cand.isEmpty then (none, g)
    else
      let ws := cand.map (fun p => getW slot p + getW anyp p)
      let pick := if ws.sum = 0 then randChoice cand g else randChoices cand ws g
      match pick.1 with
      | none => (none, pick.2)
      | some ph =>
        let tail := fillShape rest pools pick.2
        match tail.1 with
        | none => (none, tail.2)
        | some t => (some (ph ++ t), tail.2)

/-- Per-phoneme weights of the candidate union, worded as the specification
describes slot filling: each candidate of the union carries the sum of its
weight in the slot pool and in the catch-all pool. -/
def unionWeights (slot anyp : PoolBucket) : List (String × Weight) :=
  (candidateList slot anyp).map (fun p => (p, getW slot p + getW anyp p))

/-- Slot filling as the specification words it (section 4.4): for each symbol
in order, the candidate set is the union of the slot pool and the catch-all
pool with summed weights; an empty union fails; selection is weighted random
choice falling back to uniform on zero total weight; the result is the
concatenation in shape order.  Stated only to be compared with fillShape. -/
def fillShapeSpec : List Char → Pools → Rand → Option String × Rand
  | [], _, g => (some "", g)
  | c :: rest, pools, g =>
    let uw := unionWeights (slotPool pools c) (anyPool pools)
    if uw.isEmpty then (none, g)
    else
      let pick := if (uw.map Prod.snd).sum = 0
                  then randChoice (uw.map Prod.fst) g
                  else randChoices (uw.map Prod.fst) (uw.map Prod.snd) g
      match pick.1 with
      | none => (none, pick.2)
      | some ph =>
        let tail := fillShapeSpec rest pools pick.2
        match tail.1 with
        | none => (none, tail.2)
        | some t => (some (ph ++ t), tail.2)

/-- Constraint check (_violates_constraints): true when any activated rule
has any compiled pattern matching the word; rules missing from the compiled
set, or compiled to an empty pattern list, never fire. -/
def violatesConstraints (cons : List (String × List Matcher)) (w : String)
    (rules : List String) : Bool :=
  rules.any (fun r => ((lookupA r cons).getD []).any (fun p => p w))

/-- Replacement worker: structural recursion on fuel, which every step
decreases by one while consuming at least one character of the scanned text,
so fuel equal to the character count is never exhausted mid-scan. -/
def replaceAllFuel : Nat → List Char → List Char → List Char → List Char
  | 0, _, _, s => s
  | _ + 1, _, _, [] => []
  | fuel + 1, pat, rep, c :: rest =>
    if pat ≠ [] ∧ pat.isPrefixOf (c :: rest) then
      rep ++ replaceAllFuel fuel pat rep ((c :: rest).drop pat.length)
    else
      c :: replaceAllFuel fuel pat rep rest

/-- Python str.replace(pat, rep): every non-overlapping occurrence, scanned
left to right, replaced text not rescanned. -/
def replaceAll (pat rep : List Char) (s : List Char) : List Char :=
  replaceAllFuel s.length pat rep s

/-- String form of replaceAll. -/
def replaceAllStr (s pat rep : String) : String :=
  String.mk (replaceAll pat.toList rep.toList s.toList)

/-- One literal substitution rule of an orthography group. -/
structure OrthRule where
  frm : String
  toStr : String

/-- Orthography application (_apply_orthography): activated groups in order,
each group an ordered list of literal replacements, a rule skipped when its
source text is empty; groups missing from the configuration are skipped. -/
def applyOrthography (orth : List (String × List OrthRule)) (w : String)
    (order : List String) : String :=
  order.foldl (fun out key =>
    ((lookupA key orth).getD []).foldl (fun o r =>
      if r.frm ≠ "" then replaceAllStr o r.frm r.toStr else o) out) w

/-- One ontology concept record. -/
structure Concept where
  weight : Weight
  add_sounds : List String
  add_shapes : List String
  add_rules : List String
  add_spelling : List String

/-- One morphology entry: anchor and shape, each optional in the
configuration (Python morph_def.get with defaults). -/
structure MorphEntry where
  anchor : Option String
  shape : Option String

/-- Engine state: the loaded configuration sections (morphology already
extracted from definitions, constraints already compiled to matcher lists)
plus the two mutable fields, the process-lifetime lexicon and the
missing-tag counters.  The lexicon is a set of recorded keys; Python stores
each word as its own value, and the dead branch of generate can record the
key None, hence Option String entries. -/
structure Engine where
  definitions : List (String × List String)
  morphology : List (String × MorphEntry)
  constraints : List (String × List Matcher)
  orthography : List (String × List OrthRule)
  ontology : List (String × Concept)
  lexicon : List (Option String)
  missingTags : List (String × Nat)

/-- Aggregation output: pools, shape weights, activated constraint rules in
first-seen order, activated orthography groups in appended order. -/
structure Agg where
  pools : Pools
  shapes : List (String × Weight)
  rules : List String
  spelling : List String

/-- Tag input: a plain list of tags or an explicit tag-to-multiplier map. -/
inductive TagsInput where
  | list (tags : List String)
  | dict (tags : List (String × Weight))

/-- Errors raised by generate: missing blueprint (zero syllable shapes) and
attempt exhaustion, each naming the displayed tag set, exhaustion also the
attempt count. -/
inductive GenError where
  | noBlueprint (tags : List String)
  | exhausted (tags : List String) (attempts : Int)
deriving DecidableEq

/-- Keep the first occurrence of each tag, the key set and order a Python
dict comprehension produces from a list with duplicates. -/
def firstDedup : List String → List String
  | [] => []
  | t :: rest => t :: (firstDedup rest).filter (fun x => x ≠ t)

/-- Normalize the tag input to tag-multiplier pairs (list tags get implicit
multiplier one). -/
def normalizeTags : TagsInput → List (String × Weight)
  | .list l => (firstDedup l).map (fun t => (t, 1))
  | .dict d => d

/-- Displayed tag set for error messages (Python tags_display). -/
def tagsDisplay : TagsInput → List String
  | .list l => l
  | .dict d => d.map Prod.fst

/-- Classes of the definitions section containing a phoneme
(the _phoneme_to_defs lookup); iteration order over this set only feeds
commutative weight accumulation, so the definitions order is used. -/
def classifyTargets (defs : List (String × List String)) (phon : String) : List String :=
  (defs.filter (fun d => d.2.contains phon)).map Prod.fst

/-- Sound contribution of one add_sounds entry: a known class name expands to
its phonemes, anything else is a literal phoneme; each phoneme is added to
the bucket of every class containing it, or to the "any" bucket when no
class contains it. -/
def addSoundEntry (defs : List (String × List String)) (fw : Weight)
    (pools : Pools) (entry : String) : Pools :=
  let phons := (lookupA entry defs).getD [entry]
  phons.foldl (fun ps phon =>
    let cats := classifyTargets defs phon
    if cats.isEmpty then addPool ps "any" phon fw
    else cats.foldl (fun ps2 cat => addPool ps2 cat phon fw) ps) pools

/-- Increment a missing-tag counter (Python missing_tags[tag] get+1). -/
def bumpMissing : List (String × Nat) → String → List (String × Nat)
  | [], t => [(t, 1)]
  | p :: rest, t =>
    if p.1 = t then (p.1, p.2 + 1) :: rest else p :: bumpMissing rest t

/-- Process one weighted tag of the aggregation loop: resolve the concept
(missing tags only bump the counter), compute the effective weight, skip
non-positive weight, then fold in sounds, shapes, rules (first-seen
deduplicated), the unconditional per-tag "default" orthography append the
source performs when a default group exists, and explicit spelling requests
(deduplicated against everything already appended). -/
def aggStep (e : Engine) (acc : Agg × List (String × Nat)) (tw : String × Weight) :
    Agg × List (String × Nat) :=
  match lookupA tw.1 e.ontology with
  | none => (acc.1, bumpMissing acc.2 tw.1)
  | some c =>
    let fw := c.weight * tw.2
    if fw ≤ 0 then acc
    else
      let agg := acc.1
      let pools := c.add_sounds.foldl (addSoundEntry e.definitions fw) agg.pools
      let shapes := c.add_shapes.foldl (fun s sh => addW s sh fw) agg.shapes
      let rules := c.add_rules.foldl
        (fun rs rn => if rs.contains rn then rs else rs ++ [rn]) agg.rules
      let spelling0 :=
        if (lookupA "default" e.orthography).isSome then agg.spelling ++ ["default"]
        else agg.spelling
      let spelling := c.add_spelling.foldl
        (fun sp k => if sp.contains k then sp else sp ++ [k]) spelling0
      (⟨pools, shapes, rules, spelling⟩, acc.2)

/-- Steps 1 and 2 of _aggregate: normalize the input and fold every tag. -/
def aggregateCore (e : Engine) (tags : TagsInput) : Agg × List (String × Nat) :=
  (normalizeTags tags).foldl (aggStep e) (⟨[], [], [], []⟩, e.missingTags)

/-- Step 3 of _aggregate, the safety net: when the pools are empty, or the
"C" bucket and the "any" bucket are both unpopulated, seed the "C" and "V"
buckets from the raw definitions with weight one per occurrence. -/
def safetyNet (e : Engine) (pools : Pools) : Pools :=
  if pools.isEmpty || (bucketEmptyB pools "C" && bucketEmptyB pools "any") then
    let p1 := match lookupA "C" e.definitions with
      | some cs => cs.foldl (fun p ph => addPool p "C" ph 1) pools
      | none => pools
    match lookupA "V" e.definitions with
    | some vs => vs.foldl (fun p ph => addPool p "V" ph 1) p1
    | none => p1
  else pools

/-- Full aggregation (_aggregate): tag fold then safety net.  The second
component is the updated missing-tag counter map. -/
def aggregate (e : Engine) (tags : TagsInput) : Agg × List (String × Nat) :=
  let core := aggregateCore e tags
  ({ core.1 with pools := safetyNet e core.1.pools }, core.2)

/-- Python comparison self.lexicon.get(word) == False: get yields None or the
stored string, and neither None == False nor str == False holds in Python,
so the branch guarded by this test is dead code; kept for structural
fidelity. -/
def lexiconGetEqFalse (_lex : List (Option String)) (_w : String) : Bool := false

/-- Python truthiness test not self.lexicon.get(word) for a string word: true
when the word is absent, or present but empty (the stored value is the word
itself and the empty string is falsy). -/
def pyNotGetStr (lex : List (Option String)) (w : String) : Bool :=
  !(lex.contains (some w)) || (w == "")

/-- Python truthiness test not self.lexicon.get(word) when word may be None:
get(None) yields None whether or not the key None is present (its stored
value is None), which is falsy, so the test is always true for None. -/
def pyNotGetOpt (lex : List (Option String)) (w : Option String) : Bool :=
  match w with
  | none => true
  | some s => pyNotGetStr lex s

/-- Record a word in the lexicon (Python self.lexicon[word] = word: the key
set gains the key; a present key keeps its identical value). -/
def lexInsert (lex : List (Option String)) (w : Option String) : List (Option String) :=
  if lex.contains w then lex else lex ++ [w]

/-- Loop bound of the retry loops, Python range(max(1, int(attempts))). -/
def attemptsFuel (a : Int) : Nat := (max 1 a).toNat

/-- Retry loop of generate, one constructor of fuel per Python iteration:
choose a shape (falsy shapes skip the iteration), fill it (failed fills skip),
reject constraint violations, then the source's lexicon logic: a dead
always-false branch, then record-and-return of the orthography image when
unseen, otherwise the compound branch that appends a second expanded shape,
refills, and returns the refilled word (unchecked and unorthographized, and
possibly None) whenever its lexicon test passes.  Exhausted fuel raises the
exhaustion error with the displayed tags and the raw attempt count. -/
def genLoop (e : Engine) (agg : Agg) (fuel : Nat) (disp : List String) (att : Int)
    (lex : List (Option String)) (g : Rand) :
    Except GenError (Option String) × List (Option String) × Rand :=
  match fuel with
  | 0 => (.error (.exhausted disp att), lex, g)
  | fuel + 1 =>
    let cs := chooseShape agg.shapes g
    match cs.1 with
    | none => genLoop e agg fuel disp att lex cs.2
    | some s =>
      if s.isEmpty then genLoop e agg fuel disp att lex cs.2
      else
        let fw := fillShape s.toList agg.pools cs.2
        match fw.1 with
        | none => genLoop e agg fuel disp att lex fw.2
        | some w =>
          if violatesConstraints e.constraints w agg.rules then
            genLoop e agg fuel disp att lex fw.2
          else if lexiconGetEqFalse lex w then
            (.ok (some w), lexInsert lex (some w), fw.2)
          else
            let w2 := applyOrthography e.orthography w agg.spelling
            if pyNotGetStr lex w2 then
              (.ok (some w2), lexInsert lex (some w2), fw.2)
            else
              let cs2 := chooseShape agg.shapes fw.2
              let s2 := s ++ (cs2.1.getD "")
              let fw2 := fillShape s2.toList agg.pools cs2.2
              if pyNotGetOpt lex fw2.1 then
                (.ok fw2.1, lexInsert lex fw2.1, fw2.2)
              else
                genLoop e agg fuel disp att lex fw2.2

/-- Word generation with the loop bound made explicit: aggregate, fail with
the no-blueprint error when zero shapes were contributed, otherwise run the
retry loop.  Returns the result, the updated engine (missing-tag counters
from aggregation, lexicon from the loop) and the remaining random stream. -/
def generateFueled (e : Engine) (tags : TagsInput) (fuel : Nat) (att : Int) (g : Rand) :
    Except GenError (Option String) × Engine × Rand :=
  let agg := (aggregate e tags).1
  let miss := (aggregate e tags).2
  let disp := tagsDisplay tags
  if agg.shapes.isEmpty then
    (.error (.noBlueprint disp), { e with missingTags := miss }, g)
  else
    let r := genLoop e agg fuel disp att e.lexicon g
    (r.1, { e with missingTags := miss, lexicon := r.2.1 }, r.2.2)

/-- ConlangEngine.generate. -/
def generate (e : Engine) (tags : TagsInput) (attempts : Int) (g : Rand) :
    Except GenError (Option String) × Engine × Rand :=
  generateFueled e tags (attemptsFuel attempts) attempts g

/-- Retry loop of generate_suffix: fill the fixed morphology shape (failed
fills skip the iteration), reject constraint violations, return the
orthography image of the first clean fill; exhausted fuel returns the fixed
single-vowel fallback. -/
def suffixLoop (e : Engine) (agg : Agg) (shape : String) (fuel : Nat) (g : Rand) :
    String × Rand :=
  match fuel with
  | 0 => ("a", g)
  | fuel + 1 =>
    let fs := fillShape shape.toList agg.pools g
    match fs.1 with
    | none => suffixLoop e agg shape fuel fs.2
    | some sfx =>
      if violatesConstraints e.constraints sfx agg.rules then
        suffixLoop e agg shape fuel fs.2
      else
        (applyOrthography e.orthography sfx agg.spelling, fs.2)

/-- Anchor tag input of a morphology entry: the one-tag map on the anchor
when the anchor is a non-empty string, otherwise the empty map
(Python anchor_tags). -/
def anchorTagsOf (md : MorphEntry) : TagsInput :=
  if md.anchor.getD "" = "" then .dict [] else .dict [(md.anchor.getD "", 1)]

/-- Suffix generation with the loop bound made explicit: absent grammar types
return the fallback at once; otherwise pools are aggregated from the anchor
tag and the fixed shape is retried. -/
def generateSuffixFueled (e : Engine) (grammarType : String) (fuel : Nat) (g : Rand) :
    String × Engine × Rand :=
  match lookupA grammarType e.morphology with
  | none => ("a", e, g)
  | some md =>
    let shape := md.shape.getD "V"
    let agg := (aggregate e (anchorTagsOf md)).1
    let miss := (aggregate e (anchorTagsOf md)).2
    let r := suffixLoop e agg shape fuel g
    (r.1, { e with missingTags := miss }, r.2)

/-- ConlangEngine.generate_suffix. -/
def generateSuffix (e : Engine) (grammarType : String) (attempts : Int) (g : Rand) :
    String × Engine × Rand :=
  generateSuffixFueled e grammarType (attemptsFuel attempts) g

/-- Demo configuration for the compound-branch behaviour of generate: one
tag contributing sounds t and a and the two shape templates CV and X, the
symbol X having no pool. -/
def e1demo : Engine :=
  { definitions := [("C", ["t"]), ("V", ["a"])]
    morphology := []
    constraints := []
    orthography := []
    ontology := [("noun", ⟨1, ["C", "V"], ["CV", "X"], [], []⟩)]
    lexicon := []
    missingTags := [] }

/-- Demo configuration with a default orthography group and two ontology
tags contributing nothing else. -/
def e2demo : Engine :=
  { definitions := []
    morphology := []
    constraints := []
    orthography := [("default", [])]
    ontology := [("t1", ⟨1, [], [], [], []⟩), ("t2", ⟨1, [], [], [], []⟩)]
    lexicon := []
    missingTags := [] }

/-- Demo configuration with an empty ontology: every tag set yields zero
shapes. -/
def e3demo : Engine :=
  { definitions := []
    morphology := []
    constraints := []
    orthography := []
    ontology := []
    lexicon := []
    missingTags := [] }

/-- Demo configuration for the determinism witness. -/
def e4demo : Engine :=
  { definitions := [("C", ["t"]), ("V", ["a"])]
    morphology := []
    constraints := []
    orthography := []
    ontology := [("noun", ⟨1, ["C", "V"], ["CV"], [], []⟩)]
    lexicon := []
    missingTags := [] }

/-- Demo pools for the slot-filling witness. -/
def pools5 : Pools := [("C", [("t", 1)])]

/-- Demo configuration whose single tag contributes shapes but no sounds,
activating the safety net. -/
def e6demo : Engine :=
  { definitions := [("C", ["t", "k"]), ("V", ["a"])]
    morphology := []
    constraints := []
    orthography := []
    ontology := [("noun", ⟨1, [], ["CV"], [], []⟩)]
    lexicon := []
    missingTags := [] }

/-- Demo configuration with a constraint rule matching every word. -/
def e7demo : Engine :=
  { definitions := [("C", ["t"]), ("V", ["a"])]
    morphology := []
    constraints := [("all", [fun _ => true])]
    orthography := []
    ontology := [("noun", ⟨1, ["C", "V"], ["CV"], ["all"], []⟩)]
    lexicon := []
    missingTags := [] }

/-- Demo configuration with an empty morphology sub-model. -/
def e8demo : Engine :=
  { definitions := []
    morphology := []
    constraints := []
    orthography := []
    ontology := []
    lexicon := []
    missingTags := [] }

/-- Demo configuration with one anchorless morphology entry and raw
consonant and vowel classes for the safety net. -/
def e8bdemo : Engine :=
  { definitions := [("C", ["t"]), ("V", ["u"])]
    morphology := [("pl", ⟨none, none⟩)]
    constraints := []
    orthography := []
    ontology := []
    lexicon := []
    missingTags := [] }

/-- Demo configuration for the attempt-floor witness. -/
def e10demo : Engine :=
  { definitions := []
    morphology := [("pl", ⟨none, none⟩)]
    constraints := []
    orthography := []
    ontology := []
    lexicon := []
    missingTags := [] }

/-! Helper lemmas. -/

theorem lexLe_total (a : List Char) : ∀ b, lexLe a b = true ∨ lexLe b a = true := by
  induction a with
  | nil => intro b; left; rfl
  | cons x xs ih =>
    intro b
    cases b with
    | nil => right; rfl
    | cons y ys =>
      by_cases h1 : x.toNat < y.toNat
      · left; simp [lexLe, h1]
      · by_cases h2 : y.toNat < x.toNat
        · right; simp [lexLe, h2]
        · rcases ih ys with h | h
          · left; simp [lexLe, h1, h2, h]
          · right; simp [lexLe, h1, h2, h]

theorem lexLe_trans (a : List Char) :
    ∀ b c, lexLe a b = true → lexLe b c = true → lexLe a c = true := by
  induction a with
  | nil => intro b c _ _; rfl
  | cons x xs ih =>
    intro b c hab hbc
    cases b with
    | nil => simp [lexLe] at hab
    | cons y ys =>
      cases c with
      | nil => simp [lexLe] at hbc
      | cons z zs =>
        simp only [lexLe] at hab hbc ⊢
        by_cases hxy : x.toNat < y.toNat
        · by_cases hyz : y.toNat < z.toNat
          · rw [if_pos (Nat.lt_trans hxy hyz)]
          · by_cases hzy : z.toNat < y.toNat
            · rw [if_neg hyz, if_pos hzy] at hbc
              exact absurd hbc (by simp)
            · have heq : y.toNat = z.toNat := by omega
              rw [if_pos (heq ▸ hxy)]
        · by_cases hyx : y.toNat < x.toNat
          · rw [if_neg hxy, if_pos hyx] at hab
            exact absurd hab (by simp)
          · have hxy2 : x.toNat = y.toNat := by omega
            rw [if_neg hxy, if_neg hyx] at hab
            by_cases hyz : y.toNat < z.toNat
            · rw [if_pos (hxy2 ▸ hyz)]
            · by_cases hzy : z.toNat < y.toNat
              · rw [if_neg hyz, if_pos hzy] at hbc
                exact absurd hbc (by simp)
              · rw [if_neg hyz, if_neg hzy] at hbc
                rw [if_neg (by omega : ¬ x.toNat < z.toNat),
                    if_neg (by omega : ¬ z.toNat < x.toNat)]
                exact ih ys zs hab hbc

theorem sortStrings_sorted (l : List String) : List.Sorted strLeP (sortStrings l) :=
  @List.sorted_insertionSort _ strLeP _
    ⟨fun a b => lexLe_total a.toList b.toList⟩
    ⟨fun _ _ _ hab hbc => lexLe_trans _ _ _ hab hbc⟩ l

theorem randChoice_some_mem {α : Type} (xs : List α) (g : Rand) (a : α)
    (h : (randChoice xs g).1 = some a) : a ∈ xs :=
  List.get?_mem h

theorem randChoices_some_mem {α : Type} (xs : List α) (ws : List Weight) (g : Rand) (a : α)
    (h : (randChoices xs ws g).1 = some a) : a ∈ xs :=
  List.get?_mem h

theorem getD_zero_or_mem (l : List Nat) (k : Nat) : l.getD k 0 = 0 ∨ l.getD k 0 ∈ l := by
  by_cases hk : k < l.length
  · right
    rw [List.getD_eq_get? , List.get?_eq_get hk]
    exact List.get_mem _ _ _
  · left
    rw [List.getD_eq_get? , List.get?_eq_none.mpr (by omega)]
    rfl

theorem pickWeightedIdx_lt (ws : List Weight) (n L : Nat) (hL : 0 < L)
    (hlen : ws.length = L) : pickWeightedIdx ws n < L := by
  simp only [pickWeightedIdx]
  rcases getD_zero_or_mem
      ((List.range ws.length).filter (fun i => decide ((0 : Weight) < ws.getD i 0)))
      (n % ((List.range ws.length).filter
        (fun i => decide ((0 : Weight) < ws.getD i 0))).length) with h0 | hmem
  · rw [h0]; exact hL
  · have := List.mem_range.mp (List.mem_of_mem_filter hmem)
    omega

theorem weighted_pick_some (cand : List String) (ws : List Weight) (g : Rand)
    (hne : cand ≠ []) (hlen : ws.length = cand.length) :
    ∃ ph, ((if ws.sum = 0 then randChoice cand g else randChoices cand ws g).1) = some ph := by
  split
  · have hlt : (draw g).1 % cand.length < cand.length :=
      Nat.mod_lt _ (List.length_pos.mpr hne)
    exact ⟨cand.get ⟨_, hlt⟩, by simp [randChoice, List.get?_eq_get hlt]⟩
  · have hlt := pickWeightedIdx_lt ws (draw g).1 cand.length (List.length_pos.mpr hne) hlen
    exact ⟨cand.get ⟨_, hlt⟩, by simp [randChoices, List.get?_eq_get hlt]⟩

theorem map_pair_fst {β : Type} (f : String → β) :
    ∀ l : List String, (l.map (fun p => (p, f p))).map Prod.fst = l := by
  intro l
  induction l with
  | nil => rfl
  | cons x xs ih => simp [ih]

theorem map_pair_snd {β : Type} (f : String → β) :
    ∀ l : List String, (l.map (fun p => (p, f p))).map Prod.snd = l.map f := by
  intro l
  induction l with
  | nil => rfl
  | cons x xs ih => simp [ih]

theorem unionWeights_map_fst (slot anyp : PoolBucket) :
    (unionWeights slot anyp).map Prod.fst = candidateList slot anyp := by
  rw [unionWeights, map_pair_fst]

theorem unionWeights_map_snd (slot anyp : PoolBucket) :
    (unionWeights slot anyp).map Prod.snd
      = (candidateList slot anyp).map (fun p => getW slot p + getW anyp p) := by
  rw [unionWeights, map_pair_snd]

theorem unionWeights_isEmpty (slot anyp : PoolBucket) :
    (unionWeights slot anyp).isEmpty = (candidateList slot anyp).isEmpty := by
  rw [unionWeights]
  cases candidateList slot anyp <;> simp

theorem fillShape_eq_spec (shape : List Char) (pools : Pools) :
    ∀ g, fillShape shape pools g = fillShapeSpec shape pools g := by
  induction shape with
  | nil => intro g; rfl
  | cons c rest ih =>
    intro g
    simp only [fillShape, fillShapeSpec, unionWeights_map_fst, unionWeights_map_snd,
      unionWeights_isEmpty, ih]

theorem pick_some_mem (cand : List String) (ws : List Weight) (g : Rand) (ph : String)
    (h : ((if ws.sum = 0 then randChoice cand g else randChoices cand ws g)).1 = some ph) :
    ph ∈ cand := by
  split at h
  · exact randChoice_some_mem _ _ _ h
  · exact randChoices_some_mem _ _ _ _ h

theorem fillShape_none_iff (shape : List Char) (pools : Pools) :
    ∀ g, ((fillShape shape pools g).1 = none ↔
      ∃ c ∈ shape, candidateList (slotPool pools c) (anyPool pools) = []) := by
  induction shape with
  | nil => intro g; simp [fillShape]
  | cons c rest ih =>
    intro g
    simp only [fillShape]
    set cand := candidateList (slotPool pools c) (anyPool pools) with hcand
    set ws := cand.map (fun p => getW (slotPool pools c) p + getW (anyPool pools) p) with hws
    by_cases hc : cand = []
    · rw [if_pos (by simp [hc])]
      constructor
      · intro _; exact ⟨c, by simp, hc⟩
      · intro _; rfl
    · rw [if_neg (by simp [List.isEmpty_iff, hc])]
      obtain ⟨ph, hph⟩ := weighted_pick_some cand ws g hc (by rw [hws]; simp)
      rw [hph]
      set pick := (if ws.sum = 0 then randChoice cand g else randChoices cand ws g) with hpick
      cases ht : (fillShape rest pools pick.2).1 with
      | none =>
        constructor
        · intro _
          rcases (ih _).mp ht with ⟨x, hx, hcx⟩
          exact ⟨x, by simp [hx], hcx⟩
        · intro _
          rfl
      | some t =>
        constructor
        · intro hcontra
          simp at hcontra
        · rintro ⟨x, hx, hcx⟩
          rcases List.mem_cons.mp hx with rfl | hx2
          · exact absurd hcx hc
          · exact absurd ((ih pick.2).mpr ⟨x, hx2, hcx⟩) (by simp [ht])

theorem fillShape_cons_some (c : Char) (rest : List Char) (pools : Pools) (g : Rand)
    (w : String) (h : (fillShape (c :: rest) pools g).1 = some w) :
    ∃ ph t, ph ∈ candidateList (slotPool pools c) (anyPool pools) ∧ w = ph ++ t ∧
      ∃ g1, (fillShape rest pools g1).1 = some t := by
  simp only [fillShape] at h
  set cand := candidateList (slotPool pools c) (anyPool pools) with hcand
  set ws := cand.map (fun p => getW (slotPool pools c) p + getW (anyPool pools) p) with hws
  by_cases hc : cand.isEmpty
  · rw [if_pos hc] at h
    simp at h
  · rw [if_neg hc] at h
    set pick := (if ws.sum = 0 then randChoice cand g else randChoices cand ws g) with hpick
    cases hp : pick.1 with
    | none => rw [hp] at h; simp at h
    | some ph =>
      rw [hp] at h
      cases ht : (fillShape rest pools pick.2).1 with
      | none => rw [ht] at h; simp at h
      | some t =>
        rw [ht] at h
        simp only [Option.some.injEq] at h
        exact ⟨ph, t, pick_some_mem cand ws g ph (hpick ▸ hp), h.symm, pick.2, ht⟩

theorem genLoop_exhausted_aux (e : Engine) (agg : Agg) (disp : List String) (att : Int)
    (hviol : ∀ g1 s g2 w, (chooseShape agg.shapes g1).1 = some s →
      (fillShape s.toList agg.pools g2).1 = some w →
      violatesConstraints e.constraints w agg.rules = true) :
    ∀ fuel lex g, (genLoop e agg fuel disp att lex g).1 = .error (.exhausted disp att) := by
  intro fuel
  induction fuel with
  | zero => intro lex g; rfl
  | succ n ih =>
    intro lex g
    simp only [genLoop]
    split
    · exact ih lex _
    · rename_i s h1
      by_cases hs : s.isEmpty
      · rw [if_pos hs]
        exact ih lex _
      · rw [if_neg hs]
        split
        · exact ih lex _
        · rename_i w h2
          rw [if_pos (hviol g s _ w h1 h2)]
          exact ih lex _

theorem suffixLoop_cases (e : Engine) (agg : Agg) (shape : String) :
    ∀ (fuel : Nat) (g : Rand),
      (suffixLoop e agg shape fuel g).1 = "a" ∨
      ∃ w g1, (fillShape shape.toList agg.pools g1).1 = some w ∧
        violatesConstraints e.constraints w agg.rules = false ∧
        (suffixLoop e agg shape fuel g).1 = applyOrthography e.orthography w agg.spelling := by
  intro fuel
  induction fuel with
  | zero => intro g; left; rfl
  | succ n ih =>
    intro g
    simp only [suffixLoop]
    split
    · exact ih _
    · rename_i sfx hf
      cases hv : violatesConstraints e.constraints sfx agg.rules with
      | true =>
        rw [if_pos rfl]
        exact ih _
      | false =>
        rw [if_neg Bool.false_ne_true]
        right
        exact ⟨sfx, g, hf, hv, rfl⟩

theorem lookupA_addPool (p : Pools) (cat ph : String) (w : Weight) (k : String) :
    lookupA k (addPool p cat ph w) =
      if cat = k then some (addW (bucketOf p cat) ph w) else lookupA k p := by
  induction p with
  | nil =>
    by_cases h : cat = k <;> simp [addPool, lookupA, bucketOf, h]
  | cons q rest ih =>
    simp only [addPool]
    by_cases h1 : q.1 = cat
    · rw [if_pos h1]
      simp only [lookupA]
      by_cases h2 : cat = k
      · rw [if_pos (h1.trans h2), if_pos h2]
        have hbq : bucketOf (q :: rest) cat = q.2 := by
          simp [bucketOf, lookupA, h1]
        rw [hbq]
      · have h3 : ¬ q.1 = k := fun hqk => h2 (h1.symm.trans hqk)
        rw [if_neg h3, if_neg h2, if_neg h3]
    · rw [if_neg h1]
      simp only [lookupA]
      by_cases h3 : q.1 = k
      · have h2 : ¬ cat = k := fun hck => h1 (h3.trans hck.symm)
        rw [if_pos h3, if_neg h2, if_pos h3]
      · rw [if_neg h3]
        by_cases h2 : cat = k
        · have hb : bucketOf (q :: rest) cat = bucketOf rest cat := by
            simp [bucketOf, lookupA, h1]
          rw [ih, if_pos h2, if_pos h2, hb]
        · rw [ih, if_neg h2, if_neg h2, if_neg h3]

theorem bucketOf_addPool_self (p : Pools) (cat ph : String) (w : Weight) :
    bucketOf (addPool p cat ph w) cat = addW (bucketOf p cat) ph w := by
  rw [bucketOf, lookupA_addPool, if_pos rfl]
  rfl

theorem bucketOf_addPool_other (p : Pools) (cat ph : String) (w : Weight) (k : String)
    (hk : cat ≠ k) : bucketOf (addPool p cat ph w) k = bucketOf p k := by
  rw [bucketOf, lookupA_addPool, if_neg hk]
  rfl

theorem bucketOf_foldl_addPool (cs : List String) (cat : String) (w : Weight) :
    ∀ p : Pools,
      bucketOf (cs.foldl (fun pp ph => addPool pp cat ph w) p) cat
        = cs.foldl (fun b ph => addW b ph w) (bucketOf p cat) := by
  induction cs with
  | nil => intro p; rfl
  | cons c cs ih =>
    intro p
    simp only [List.foldl]
    rw [ih, bucketOf_addPool_self]

theorem bucketOf_foldl_addPool_other (cs : List String) (cat k : String) (w : Weight)
    (hk : cat ≠ k) :
    ∀ p : Pools,
      bucketOf (cs.foldl (fun pp ph => addPool pp cat ph w) p) k = bucketOf p k := by
  induction cs with
  | nil => intro p; rfl
  | cons c cs ih =>
    intro p
    simp only [List.foldl]
    rw [ih, bucketOf_addPool_other _ _ _ _ _ hk]

theorem addW_notMem (b : List (String × Weight)) (k : String) (w : Weight)
    (h : ∀ q ∈ b, q.1 ≠ k) : addW b k w = b ++ [(k, w)] := by
  induction b with
  | nil => rfl
  | cons q rest ih =>
    rw [addW, if_neg (h q (by simp))]
    rw [ih (fun q hq => h q (by simp [hq]))]
    rfl

theorem foldl_addW_seed (cs : List String) :
    ∀ b : List (String × Weight), cs.Nodup → (∀ x ∈ cs, ∀ q ∈ b, q.1 ≠ x) →
      cs.foldl (fun bb ph => addW bb ph 1) b = b ++ cs.map (fun p => (p, (1 : Weight))) := by
  induction cs with
  | nil => intro b _ _; simp
  | cons c cs ih =>
    intro b hnd hfresh
    simp only [List.foldl, List.map]
    rw [addW_notMem b c 1 (fun q hq => hfresh c (by simp) q hq)]
    rw [ih (b ++ [(c, 1)]) (List.nodup_cons.mp hnd).2 ?fresh]
    · rw [List.append_assoc]
      rfl
    case fresh =>
      intro x hx q hq
      rcases List.mem_append.mp hq with hq1 | hq2
      · exact hfresh x (by simp [hx]) q hq1
      · have hqc : q = (c, 1) := by simpa using hq2
        rw [hqc]
        intro hcx
        have hcx2 : c = x := hcx
        exact (List.nodup_cons.mp hnd).1 (by rw [hcx2]; exact hx)

/-! Claim theorems. -/

/-- C1 (code observation at the failing input): the claim states that a
successful generate always returns a constraint-clean, previously unseen
string with orthography applied, never a non-string value.  The code
violates this: on the configuration e1demo a first call returns the word
ta, and a second call with suitable draws reaches the compound branch
(the orthographized word is already in the lexicon), appends the poolless
shape X, fails the refill, and returns the Python value None on the
success path. -/
theorem generate_compound_branch_returns_none :
    (generate e1demo (.list ["noun"]) 100 [0, 0, 0]).1 = .ok (some "ta") ∧
    (generate ((generate e1demo (.list ["noun"]) 100 [0, 0, 0]).2.1)
        (.list ["noun"]) 100 [0, 0, 0, 1, 0, 0]).1 = .ok none :=
  ⟨rfl, rfl⟩

/-- C2 (code observation at the failing input): the claim states that the
activated orthography group list is deduplicated with a default group first.
The code appends the default group once per processed tag without consulting
the seen set, so with two active tags the list contains default twice. -/
theorem aggregate_default_duplicated :
    (aggregate e2demo (.list ["t1", "t2"])).1.spelling = ["default", "default"] :=
  rfl

/-- C3: when aggregation yields an empty shape-weight mapping, generate
fails with the no-blueprint error naming the tag set, consumes no random
draws (the stream is returned unchanged) and leaves the lexicon unchanged. -/
theorem generate_noBlueprint (e : Engine) (tags : TagsInput) (a : Int) (g : Rand)
    (h : (aggregate e tags).1.shapes = []) :
    (generate e tags a g).1 = .error (.noBlueprint (tagsDisplay tags)) ∧
    (generate e tags a g).2.2 = g ∧
    (generate e tags a g).2.1.lexicon = e.lexicon := by
  have hb : ((aggregate e tags).1.shapes).isEmpty = true := by simp [h]
  refine ⟨?_, ?_, ?_⟩ <;> simp [generate, generateFueled, hb]

/-- C3 witness: a concrete engine with empty ontology and a tag set
yielding zero shapes. -/
theorem generate_noBlueprint_witness :
    (generate e3demo (.list ["x"]) 7 [3, 4]).1 = .error (.noBlueprint ["x"]) ∧
    (generate e3demo (.list ["x"]) 7 [3, 4]).2.2 = [3, 4] ∧
    (generate e3demo (.list ["x"]) 7 [3, 4]).2.1.lexicon = e3demo.lexicon :=
  generate_noBlueprint e3demo (.list ["x"]) 7 [3, 4] rfl

/-- C4: generate is deterministic in the engine, tag input and random
stream (two runs on equal fresh engines with the equal seed stream give
equal output), and every weighted-choice site iterates its candidate set in
a stable sorted order: the shape keys and the per-slot candidate union are
sorted in the string order used by the source. -/
theorem generate_deterministic :
    (∀ (e1 e2 : Engine) (tags : TagsInput) (a : Int) (g1 g2 : Rand),
        e1 = e2 → g1 = g2 → generate e1 tags a g1 = generate e2 tags a g2) ∧
    (∀ sw : List (String × Weight), List.Sorted strLeP (sortedShapeKeys sw)) ∧
    (∀ slot anyp : PoolBucket, List.Sorted strLeP (candidateList slot anyp)) := by
  refine ⟨?_, ?_, ?_⟩
  · intro e1 e2 tags a g1 g2 he hg
    rw [he, hg]
  · intro sw
    exact sortStrings_sorted _
  · intro slot anyp
    exact sortStrings_sorted _

/-- C4 witness: the determinism part applied at a concrete engine with a
concrete stream. -/
theorem generate_deterministic_witness :
    generate e4demo (.list ["noun"]) 3 [0, 0, 0] = generate e4demo (.list ["noun"]) 3 [0, 0, 0] :=
  generate_deterministic.1 e4demo e4demo (.list ["noun"]) 3 [0, 0, 0] [0, 0, 0] rfl rfl

/-- C5: slot filling equals the specification wording (per symbol in order,
candidates are the union of the slot pool and the catch-all pool with summed
weights, weighted choice with uniform fallback on zero total, concatenation
in shape order); it returns no word exactly when some symbol of the shape
has an empty candidate union; and a successful fill of a non-empty shape
starts with a phoneme drawn from the head symbol union followed by a fill
of the remaining shape. -/
theorem fillShape_follows_spec :
    (∀ (shape : List Char) (pools : Pools) (g : Rand),
        fillShape shape pools g = fillShapeSpec shape pools g) ∧
    (∀ (shape : List Char) (pools : Pools) (g : Rand),
        ((fillShape shape pools g).1 = none ↔
          ∃ c ∈ shape, candidateList (slotPool pools c) (anyPool pools) = [])) ∧
    (∀ (c : Char) (rest : List Char) (pools : Pools) (g : Rand) (w : String),
        (fillShape (c :: rest) pools g).1 = some w →
        ∃ ph t, ph ∈ candidateList (slotPool pools c) (anyPool pools) ∧ w = ph ++ t ∧
          ∃ g1, (fillShape rest pools g1).1 = some t) :=
  ⟨fun shape pools g => fillShape_eq_spec shape pools g,
   fun shape pools g => fillShape_none_iff shape pools g,
   fun c rest pools g w h => fillShape_cons_some c rest pools g w h⟩

/-- C5 witness: the success-shape part applied at a concrete one-symbol
shape and pool. -/
theorem fillShape_follows_spec_witness :
    ∃ ph t, ph ∈ candidateList (slotPool pools5 'C') (anyPool pools5) ∧ "t" = ph ++ t ∧
      ∃ g1, (fillShape [] pools5 g1).1 = some t :=
  fillShape_follows_spec.2.2 'C' [] pools5 [0] "t" rfl

/-- C6: when the tag fold leaves the consonant, vowel and catch-all buckets
all unpopulated, and the configuration defines duplicate-free raw consonant
and vowel classes, aggregation seeds the consonant and vowel buckets from
those raw classes with weight one per phoneme. -/
theorem aggregate_safety_net (e : Engine) (tags : TagsInput) (cs vs : List String)
    (hC : lookupA "C" e.definitions = some cs)
    (hV : lookupA "V" e.definitions = some vs)
    (hcs : cs.Nodup) (hvs : vs.Nodup)
    (h1 : bucketOf (aggregateCore e tags).1.pools "C" = [])
    (h2 : bucketOf (aggregateCore e tags).1.pools "V" = [])
    (h3 : bucketOf (aggregateCore e tags).1.pools "any" = []) :
    bucketOf (aggregate e tags).1.pools "C" = cs.map (fun p => (p, (1 : Weight))) ∧
    bucketOf (aggregate e tags).1.pools "V" = vs.map (fun p => (p, (1 : Weight))) := by
  have hcv : ("C" : String) ≠ "V" := by decide
  have hpool : (aggregate e tags).1.pools = safetyNet e (aggregateCore e tags).1.pools := rfl
  have hcond : ((aggregateCore e tags).1.pools.isEmpty
      || (bucketEmptyB (aggregateCore e tags).1.pools "C"
          && bucketEmptyB (aggregateCore e tags).1.pools "any")) = true := by
    have hc : bucketEmptyB (aggregateCore e tags).1.pools "C" = true := by
      simp [bucketEmptyB, h1]
    have ha : bucketEmptyB (aggregateCore e tags).1.pools "any" = true := by
      simp [bucketEmptyB, h3]
    rw [hc, ha]
    simp
  rw [hpool, safetyNet, if_pos hcond, hC, hV]
  constructor
  · rw [bucketOf_foldl_addPool_other vs "V" "C" 1 (fun hvc => hcv hvc.symm)]
    rw [bucketOf_foldl_addPool cs "C" 1, h1]
    rw [foldl_addW_seed cs [] hcs (by intro x hx q hq; simp at hq)]
    simp
  · rw [bucketOf_foldl_addPool vs "V" 1]
    rw [bucketOf_foldl_addPool_other cs "C" "V" 1 hcv, h2]
    rw [foldl_addW_seed vs [] hvs (by intro x hx q hq; simp at hq)]
    simp

/-- C6 witness: a concrete configuration whose single tag contributes only
shapes, so the safety net seeds the consonant and vowel buckets. -/
theorem aggregate_safety_net_witness :
    bucketOf (aggregate e6demo (.list ["noun"])).1.pools "C" = [("t", 1), ("k", 1)] ∧
    bucketOf (aggregate e6demo (.list ["noun"])).1.pools "V" = [("a", 1)] :=
  aggregate_safety_net e6demo (.list ["noun"]) ["t", "k"] ["a"]
    rfl rfl (by decide) (by decide) rfl rfl rfl

/-- C7: when shapes exist but every word the fill step can produce from a
chosen shape violates the activated constraints, generate raises the
exhaustion error naming the displayed tag set and the attempt count. -/
theorem generate_exhausts_under_total_constraints (e : Engine) (tags : TagsInput)
    (a : Int) (g : Rand)
    (hne : ((aggregate e tags).1.shapes).isEmpty = false)
    (hviol : ∀ g1 s g2 w, (chooseShape (aggregate e tags).1.shapes g1).1 = some s →
      (fillShape s.toList (aggregate e tags).1.pools g2).1 = some w →
      violatesConstraints e.constraints w (aggregate e tags).1.rules = true) :
    (generate e tags a g).1 = .error (.exhausted (tagsDisplay tags) a) := by
  have hloop := genLoop_exhausted_aux e (aggregate e tags).1 (tagsDisplay tags) a hviol
    (attemptsFuel a) e.lexicon g
  simp only [generate, generateFueled, hne]
  simpa using hloop

/-- C7 witness: a concrete configuration whose one constraint rule matches
every word. -/
theorem generate_exhausts_witness :
    (generate e7demo (.list ["noun"]) 2 []).1 = .error (.exhausted ["noun"] 2) :=
  generate_exhausts_under_total_constraints e7demo (.list ["noun"]) 2 [] rfl
    (fun g1 s g2 w hc hf => rfl)

/-- C8: generate_suffix is total (it always returns a string, never
raising): a grammar type absent from the morphology returns the fixed
single-vowel fallback with the engine and stream untouched; a present entry
either returns the fallback (attempts exhausted) or the orthography image
of a constraint-clean fill of the fixed shape template. -/
theorem generateSuffix_never_raises :
    (∀ (e : Engine) (gt : String) (a : Int) (g : Rand),
        lookupA gt e.morphology = none → generateSuffix e gt a g = ("a", e, g)) ∧
    (∀ (e : Engine) (gt : String) (a : Int) (g : Rand) (md : MorphEntry),
        lookupA gt e.morphology = some md →
        (generateSuffix e gt a g).1 = "a" ∨
        ∃ w g1,
          (fillShape (md.shape.getD "V").toList
              (aggregate e (anchorTagsOf md)).1.pools g1).1 = some w ∧
          violatesConstraints e.constraints w (aggregate e (anchorTagsOf md)).1.rules = false ∧
          (generateSuffix e gt a g).1 =
            applyOrthography e.orthography w (aggregate e (anchorTagsOf md)).1.spelling) := by
  constructor
  · intro e gt a g hmd
    simp [generateSuffix, generateSuffixFueled, hmd]
  · intro e gt a g md hmd
    have heq : (generateSuffix e gt a g).1 =
        (suffixLoop e (aggregate e (anchorTagsOf md)).1 (md.shape.getD "V")
          (attemptsFuel a) g).1 := by
      simp [generateSuffix, generateSuffixFueled, hmd]
    rw [heq]
    exact suffixLoop_cases e (aggregate e (anchorTagsOf md)).1 (md.shape.getD "V")
      (attemptsFuel a) g

/-- C8 witness: both parts at concrete engines, one with the grammar type
absent and one with an anchorless entry whose aggregation is seeded by the
safety net. -/
theorem generateSuffix_never_raises_witness :
    generateSuffix e8demo "plural" 5 [] = ("a", e8demo, []) ∧
    ((generateSuffix e8bdemo "pl" 5 []).1 = "a" ∨
      ∃ w g1,
        (fillShape ((MorphEntry.mk none none).shape.getD "V").toList
            (aggregate e8bdemo (anchorTagsOf (MorphEntry.mk none none))).1.pools g1).1
          = some w ∧
        violatesConstraints e8bdemo.constraints w
            (aggregate e8bdemo (anchorTagsOf (MorphEntry.mk none none))).1.rules = false ∧
        (generateSuffix e8bdemo "pl" 5 []).1 =
          applyOrthography e8bdemo.orthography w
            (aggregate e8bdemo (anchorTagsOf (MorphEntry.mk none none))).1.spelling) :=
  ⟨generateSuffix_never_raises.1 e8demo "plural" 5 [] rfl,
   generateSuffix_never_raises.2 e8bdemo "pl" 5 [] (MorphEntry.mk none none) rfl⟩

/-- C9: generate and generate_suffix leave every loaded configuration
section of the engine unchanged (definitions, morphology, constraints,
orthography, ontology); the only mutated fields are the lexicon and the
missing-tag counters, which the engine record makes explicit. -/
theorem engine_sections_frame (e : Engine) (tags : TagsInput) (gt : String)
    (a : Int) (g g2 : Rand) :
    ((generate e tags a g).2.1.definitions = e.definitions ∧
     (generate e tags a g).2.1.morphology = e.morphology ∧
     (generate e tags a g).2.1.constraints = e.constraints ∧
     (generate e tags a g).2.1.orthography = e.orthography ∧
     (generate e tags a g).2.1.ontology = e.ontology) ∧
    ((generateSuffix e gt a g2).2.1.definitions = e.definitions ∧
     (generateSuffix e gt a g2).2.1.morphology = e.morphology ∧
     (generateSuffix e gt a g2).2.1.constraints = e.constraints ∧
     (generateSuffix e gt a g2).2.1.orthography = e.orthography ∧
     (generateSuffix e gt a g2).2.1.ontology = e.ontology) := by
  constructor
  · by_cases hb : ((aggregate e tags).1.shapes).isEmpty <;>
      refine ⟨?_, ?_, ?_, ?_, ?_⟩ <;> simp [generate, generateFueled, hb]
  · cases hmd : lookupA gt e.morphology <;>
      refine ⟨?_, ?_, ?_, ?_, ?_⟩ <;> simp [generateSuffix, generateSuffixFueled, hmd]

/-- C10: a zero or negative attempts argument is clamped to a single
iteration: the loop bound becomes one and both generate and generate_suffix
behave exactly as a one-attempt run (so no immediate exhaustion or fallback
happens without one candidate being tried). -/
theorem attempts_floor (a : Int) (h : a ≤ 0) :
    attemptsFuel a = 1 ∧
    (∀ (e : Engine) (tags : TagsInput) (g : Rand),
        generate e tags a g = generateFueled e tags 1 a g) ∧
    (∀ (e : Engine) (gt : String) (g : Rand),
        generateSuffix e gt a g = generateSuffixFueled e gt 1 g) := by
  have h1 : attemptsFuel a = 1 := by
    rw [attemptsFuel, max_eq_left (by omega : a ≤ 1)]
    rfl
  refine ⟨h1, ?_, ?_⟩
  · intro e tags g
    rw [generate, h1]
  · intro e gt g
    rw [generateSuffix, h1]

/-- C10 witness: the clamping applied at the attempts value minus three. -/
theorem attempts_floor_witness :
    attemptsFuel (-3) = 1 ∧
    generate e10demo (.list ["x"]) (-3) [] = generateFueled e10demo (.list ["x"]) 1 (-3) [] ∧
    generateSuffix e10demo "pl" (-3) [] = generateSuffixFueled e10demo "pl" 1 [] :=
  ⟨(attempts_floor (-3) (by decide)).1,
   (attempts_floor (-3) (by decide)).2.1 e10demo (.list ["x"]) [],
   (attempts_floor (-3) (by decide)).2.2 e10demo "pl" []⟩

end Conlang
